import Mathlib

/-!
Shallow embedding of `dynamodb-repository-pattern` (TypeScript).

Source files embedded:
  * `src/lib/expressions.ts` — the query-expression compiler
    (`toKeyConditionExpression`, `toFilterConditionExpression`,
    `toExpression`, `toExpressionValue`).
  * `src/lib/repository.ts` — the schema-bound `Repository`
    (`put`, `get`, `query`, `scan`, `NotFoundError`).

Modelling conventions:
  * A JavaScript object is an insertion-ordered association list with unique
    keys (`Rec`).  `Rec.set` is in-place update (a JS assignment keeps the
    original key position); `Rec.merge a b` is the spread `{...a, ...b}`.
  * A JS scalar `string | number | boolean` is `Value` (numbers as `Int`;
    no arithmetic is performed on values by the code).
  * The runtime shape of an `Expression` is a bare scalar or an array whose
    element 0 is the operator tag; `Expression.arr tag args` carries the
    elements after the tag, so the source's `expr[1]` is `args.get? 0` and
    `expr[2]` is `args.get? 1`.  A read past the end of a JS array yields
    `undefined`, hence bindings have type `Option Value`.
  * zod is caller-supplied: a `Schema α ε` is its `parse` entry point,
    returning the transformed item or a diagnostic of type `ε`
    (`ZodError` in the source).
  * The DynamoDB document client is external.  A single table is a `Rec Key α`
    together with the engine's key extraction `keyOf : α → Key` (the table's
    key schema); `paginateQuery` / `paginateScan` are modelled as a function
    from the request to the list of returned pages.  The item sequence an
    async generator yields, with the error that aborts it, is the pair
    produced by `parseItems`.
-/

/-- A JS scalar value: `string | number | boolean`. -/
inductive Value where
  | str (s : String)
  | num (n : Int)
  | bool (b : Bool)
deriving DecidableEq, Repr

/-- An insertion-ordered JS object: association list with unique keys. -/
abbrev Rec (κ : Type) (α : Type) := List (κ × α)

namespace Rec

/-- Property read `r[k]`: `none` is JS `undefined`. -/
def get [DecidableEq κ] : Rec κ α → κ → Option α
  | [], _ => none
  | (k', v) :: rest, k => if k' = k then some v else get rest k

/-- Property write `r[k] = v`: overwrites in place, else appends. -/
def set [DecidableEq κ] : Rec κ α → κ → α → Rec κ α
  | [], k, v => [(k, v)]
  | (k', v') :: rest, k, v =>
    if k' = k then (k', v) :: rest else (k', v') :: set rest k v

/-- Object spread `{...a, ...b}`: b's entries written into a left to right. -/
def merge [DecidableEq κ] (a b : Rec κ α) : Rec κ α :=
  b.foldl (fun acc p => set acc p.1 p.2) a

/-- The keys of the object, in insertion order. -/
def keys (r : Rec κ α) : List κ := r.map Prod.fst

end Rec

/-- `type Expression = Value | [Operator, Value] | ["between", Value, Value]`
at runtime: a bare scalar, or an array holding the operator tag at index 0
followed by its arguments. -/
inductive Expression where
  | scalar (v : Value)
  | arr (tag : String) (args : List Value)
deriving DecidableEq, Repr

/-- `toExpression` of `expressions.ts`: one clause of the condition string. -/
def toExpression (key : String) (expr : Expression) : String :=
  let operator := match expr with
    | .scalar _ => "="
    | .arr tag _ => tag
  if operator = "between" then
    key ++ " between :" ++ key ++ "min and :" ++ key ++ "max"
  else if operator = "begins_with" then
    "begins_with(" ++ key ++ ", :" ++ key ++ ")"
  else
    key ++ " " ++ operator ++ " :" ++ key

/-- `toExpressionValue` of `expressions.ts`: the parameter bindings of one
attribute.  The source's `expr[1]` / `expr[2]` are `args.get? 0` /
`args.get? 1`. -/
def toExpressionValue (key : String) (expr : Expression) : Rec String (Option Value) :=
  match expr with
  | .scalar v => [(":" ++ key, some v)]
  | .arr tag args =>
    if tag = "between" then
      [(":" ++ key ++ "min", args.get? 0), (":" ++ key ++ "max", args.get? 1)]
    else
      [(":" ++ key, args.get? 0)]

/-- Result object of `toKeyConditionExpression`. -/
structure KeyCondition where
  values : Rec String (Option Value)
  expression : String
deriving DecidableEq, Repr

/-- `toKeyConditionExpression` of `expressions.ts`. -/
def toKeyConditionExpression (keys : Rec String Expression) : KeyCondition :=
  { values := (keys.map (fun p => toExpressionValue p.1 p.2)).foldl Rec.merge []
    expression := String.intercalate " and "
      (keys.map (fun p => toExpression p.1 p.2)) }

/-- Result object of `toFilterConditionExpression`; its `expression` field
has source type `string | undefined`. -/
structure FilterCondition where
  expression : Option String
  values : Rec String (Option Value)
deriving DecidableEq, Repr

/-- `toFilterConditionExpression` of `expressions.ts`: on an absent mapping
returns `{ expression: undefined, values: {} }`, otherwise delegates to
`toKeyConditionExpression`. -/
def toFilterConditionExpression (filter : Option (Rec String Expression)) : FilterCondition :=
  match filter with
  | none => { expression := none, values := [] }
  | some f =>
    let c := toKeyConditionExpression f
    { expression := some c.expression, values := c.values }

/-- A key scalar: the source's `Record<string, string | number>`. -/
inductive KeyValue where
  | str (s : String)
  | num (n : Int)
deriving DecidableEq, Repr

/-- A DynamoDB primary key: mapping of key-attribute names to scalars. -/
abbrev Key := Rec String KeyValue

/-- `JSON.stringify` of a key scalar (keys in this codebase are plain
identifiers and numbers, with no characters needing JSON escapes). -/
def stringifyKeyValue : KeyValue → String
  | .str s => "\"" ++ s ++ "\""
  | .num n => toString n

/-- `JSON.stringify` of a key object. -/
def stringifyKey (key : Key) : String :=
  "\x7b" ++
    String.intercalate ","
      (key.map (fun p => "\"" ++ p.1 ++ "\":" ++ stringifyKeyValue p.2)) ++
  "\x7d"

/-- A zod schema, as the `Repository` uses it: `schema.parse` returns the
validated / transformed item or throws a diagnostic of type `ε`. -/
structure Schema (α : Type) (ε : Type) where
  parse : α → Except ε α

/-- The errors `repository.ts` raises itself: `NotFoundError` (carrying its
message string) and a schema validation error rethrown from `schema.parse`. -/
inductive RepoError (ε : Type) where
  | notFound (message : String)
  | validation (error : ε)
deriving DecidableEq, Repr

/-- A `Repository<T>`: table name and bound schema (the client handle is
passed to each operation as the explicit storage state it reaches). -/
structure Repository (α : Type) (ε : Type) where
  tableName : String
  schema : Schema α ε

/-- `Repository.parse`: delegate to the bound schema. -/
def Repository.parse (r : Repository α ε) (data : α) : Except ε α :=
  r.schema.parse data

/-- `Repository.put`: parse first; on failure the error propagates and the
table is untouched; on success upsert the parsed item under the key the
engine extracts from it (`keyOf`, the table's key schema) and return the
parsed item. -/
def Repository.put (r : Repository α ε) (keyOf : α → Key) (table : Rec Key α)
    (data : α) : Except (RepoError ε) α × Rec Key α :=
  match r.parse data with
  | .error e => (.error (.validation e), table)
  | .ok parsed => (.ok parsed, table.set (keyOf parsed) parsed)

/-- The `NotFoundError` message built by `Repository.get`. -/
def notFoundMessage (tableName : String) (key : Key) : String :=
  "Item not found in " ++ tableName ++ " for keys " ++ stringifyKey key

/-- `Repository.get`: point lookup; absent item raises `NotFoundError`
naming the table and the stringified key; a present item is parsed through
the schema before being returned. -/
def Repository.get (r : Repository α ε) (table : Rec Key α) (key : Key) :
    Except (RepoError ε) α :=
  match table.get key with
  | none => .error (.notFound (notFoundMessage r.tableName key))
  | some item =>
    match r.parse item with
    | .error e => .error (.validation e)
    | .ok v => .ok v

/-- One page of a paginated response; `Items` may be absent
(`page.Items ?? []` in the source). -/
structure Page (α : Type) where
  Items : Option (List α)

/-- The request `Repository.query` hands to `paginateQuery`. -/
structure QueryRequest where
  TableName : String
  KeyConditionExpression : String
  ExpressionAttributeValues : Rec String (Option Value)
  IndexName : Option String
deriving DecidableEq

/-- The request `Repository.scan` hands to `paginateScan`. -/
structure ScanRequest where
  TableName : String
deriving DecidableEq

/-- `QueryParams` of `repository.ts`. -/
structure QueryParams where
  index : Option String := none

/-- The item stream of the nested generator loops: every page's `Items ?? []`
in page order. -/
def pageItems (pages : List (Page α)) : List α :=
  pages.flatMap (fun p => p.Items.getD [])

/-- The observable outcome of `for await (page) { for (item) yield parse(item) }`:
the list of items yielded before the first validation failure, and the error
that aborted the generator, if any. -/
def parseItems (parse : α → Except ε α) : List α → List α × Option ε
  | [] => ([], none)
  | i :: rest =>
    match parse i with
    | .error e => ([], some e)
    | .ok v =>
      let r := parseItems parse rest
      (v :: r.1, r.2)

/-- The raw item stream `Repository.query` iterates: the pages the engine
returns for the compiled request. -/
def Repository.queryRaws (r : Repository α ε) (engine : QueryRequest → List (Page α))
    (keys : Rec String Expression) (params : QueryParams) : List α :=
  let c := toKeyConditionExpression keys
  pageItems (engine
    { TableName := r.tableName
      KeyConditionExpression := c.expression
      ExpressionAttributeValues := c.values
      IndexName := params.index })

/-- `Repository.query`: compile the key condition, drain the paginator,
parse each item before yielding it. -/
def Repository.query (r : Repository α ε) (engine : QueryRequest → List (Page α))
    (keys : Rec String Expression) (params : QueryParams) : List α × Option ε :=
  parseItems r.parse (r.queryRaws engine keys params)

/-- The raw item stream `Repository.scan` iterates. -/
def Repository.scanRaws (r : Repository α ε) (engine : ScanRequest → List (Page α)) :
    List α :=
  pageItems (engine { TableName := r.tableName })

/-- `Repository.scan`: drain the paginator over the whole table, parsing
each item before yielding it. -/
def Repository.scan (r : Repository α ε) (engine : ScanRequest → List (Page α)) :
    List α × Option ε :=
  parseItems r.parse (r.scanRaws engine)

/-- A concrete schema for instantiations: accepts strings unchanged and
rejects everything else (zod `z.string()`). -/
def strSchema : Schema Value String :=
  ⟨fun v => match v with
    | .str s => .ok (.str s)
    | _ => .error "expected a string"⟩

/-- A repository binding `strSchema` to table `posts`. -/
def strRepo : Repository Value String := ⟨"posts", strSchema⟩

/-- Key extraction of the demo table: partition key `pk` from the value. -/
def strKeyOf : Value → Key
  | .str s => [("pk", .str s)]
  | .num n => [("pk", .num n)]
  | .bool _ => [("pk", .str "bool")]

/-- A schema whose transform is not stable on its own output
(zod `z.number().transform(n => n + 1)`). -/
def bumpSchema : Schema Value String :=
  ⟨fun v => match v with
    | .num n => .ok (.num (n + 1))
    | _ => .error "expected a number"⟩

/-- A repository binding `bumpSchema` to table `counters`. -/
def bumpRepo : Repository Value String := ⟨"counters", bumpSchema⟩

/-- Key extraction keying every item to the same partition key. -/
def constKeyOf : Value → Key := fun _ => [("pk", KeyValue.str "k")]

namespace Rec

theorem get_set_self [DecidableEq κ] (r : Rec κ α) (k : κ) (v : α) :
    (set r k v).get k = some v := by
  induction r with
  | nil => simp [set, get]
  | cons p rest ih =>
    by_cases h : p.1 = k
    · simp [set, h, get]
    · simp [set, get, h, ih]

theorem get_set_ne [DecidableEq κ] (r : Rec κ α) {k k' : κ} (v : α) (h : k' ≠ k) :
    (set r k' v).get k = r.get k := by
  induction r with
  | nil => simp [set, get, h]
  | cons p rest ih =>
    by_cases hp : p.1 = k'
    · simp [set, hp, get, h]
    · simp [set, get, hp, ih]

theorem get_eq_none_of_not_mem_keys [DecidableEq κ] (r : Rec κ α) (k : κ)
    (h : k ∉ r.keys) : r.get k = none := by
  induction r with
  | nil => simp [get]
  | cons p rest ih =>
    simp [keys] at h
    have h1 : p.1 ≠ k := fun he => h.1 he.symm
    simp [get, h1]
    exact ih (by simp [keys, h.2])

theorem get_merge_of_none [DecidableEq κ] (a b : Rec κ α) (k : κ)
    (h : b.get k = none) : (merge a b).get k = a.get k := by
  induction b generalizing a with
  | nil => simp [merge]
  | cons p rest ih =>
    have hp : p.1 ≠ k := by
      intro he
      simp [get, he] at h
    simp [get, hp] at h
    show (merge (set a p.1 p.2) rest).get k = a.get k
    rw [ih _ h, get_set_ne _ _ hp]

theorem get_merge_of_some [DecidableEq κ] (b : Rec κ α) (k : κ) (v : α) :
    ∀ a : Rec κ α, b.keys.Nodup → get b k = some v → get (merge a b) k = some v := by
  induction b with
  | nil => intro a _ h; simp [get] at h
  | cons p rest ih =>
    intro a hnd h
    simp [keys, List.nodup_cons] at hnd
    by_cases hp : p.1 = k
    · subst hp
      have hv : p.2 = v := by simpa [get] using h
      have hrest : get rest p.1 = none :=
        get_eq_none_of_not_mem_keys rest p.1 (by simp [keys]; exact hnd.1)
      show get (merge (set a p.1 p.2) rest) p.1 = some v
      rw [get_merge_of_none _ _ _ hrest, get_set_self, hv]
    · have h2 : get rest k = some v := by simpa [get, hp] using h
      show get (merge (set a p.1 p.2) rest) k = some v
      exact ih (set a p.1 p.2) hnd.2 h2

end Rec

/-- The key names `toExpressionValue` synthesizes for one attribute never
collide with each other. -/
theorem toExpressionValue_keys_nodup (key : String) (expr : Expression) :
    (toExpressionValue key expr).keys.Nodup := by
  cases expr with
  | scalar v => simp [toExpressionValue, Rec.keys]
  | arr tag args =>
    by_cases h : tag = "between"
    · simp [toExpressionValue, h, Rec.keys]
      intro he
      have h2 := congrArg String.data he
      simp [String.data_append] at h2
    · simp [toExpressionValue, h, Rec.keys]

/-- Every item an aborting-on-error parse loop yields is the successful
parse of some raw item of the stream. -/
theorem parseItems_mem (f : α → Except ε α) (l : List α) :
    ∀ y ∈ (parseItems f l).1, ∃ x ∈ l, f x = .ok y := by
  induction l with
  | nil => simp [parseItems]
  | cons i rest ih =>
    intro y hy
    cases hf : f i with
    | error e => simp [parseItems, hf] at hy
    | ok v =>
      simp [parseItems, hf] at hy
      cases hy with
      | inl h => exact ⟨i, by simp, h ▸ hf⟩
      | inr h =>
        obtain ⟨x, hx, hfx⟩ := ih y h
        exact ⟨x, by simp [hx], hfx⟩

/-- If the parse loop ends with an error, the stream splits into a prefix
of successfully parsed items, the item whose parse produced exactly that
error, and an unread remainder; the yielded list is exactly the parses of
the prefix. -/
theorem parseItems_abort (f : α → Except ε α) (l : List α) (e : ε)
    (h : (parseItems f l).2 = some e) :
    ∃ pre bad post, l = pre ++ bad :: post
      ∧ (∀ x ∈ pre, (f x).isOk)
      ∧ f bad = .error e
      ∧ (parseItems f l).1 = pre.filterMap (fun x => (f x).toOption) := by
  induction l with
  | nil => simp [parseItems] at h
  | cons i rest ih =>
    cases hf : f i with
    | error e2 =>
      have he : e2 = e := by simpa [parseItems, hf] using h
      refine ⟨[], i, rest, by simp, by simp, by rw [hf, he], ?_⟩
      show (parseItems f (i :: rest)).1 = _
      simp [parseItems, hf]
    | ok v =>
      have h2 : (parseItems f rest).2 = some e := by simpa [parseItems, hf] using h
      obtain ⟨pre, bad, post, hl, hpre, hbad, hyield⟩ := ih h2
      refine ⟨i :: pre, bad, post, by simp [hl], ?_, hbad, ?_⟩
      · intro x hx
        rcases List.mem_cons.mp hx with h1 | h1
        · subst h1; simp [hf, Except.isOk, Except.toBool]
        · exact hpre x h1
      · show (parseItems f (i :: rest)).1 = _
        simp [parseItems, hf, hyield, Except.toOption]

/-- The parameter names `:{name}min` and `:{name}max` synthesized for a
`between` entry are always distinct. -/
theorem min_max_param_ne (name : String) :
    ":" ++ name ++ "min" ≠ ":" ++ name ++ "max" := by
  intro h
  have h2 := congrArg String.data h
  simp [String.data_append] at h2

/-- Claim C5 counterexample: compiling
`{ pk: "post2", sk: ["begins_with", "comment"] }` does not yield the
condition string `"pk = :pk and sk = :sk"` claimed. -/
theorem begins_with_array_not_equality :
    (toKeyConditionExpression
      [("pk", Expression.scalar (Value.str "post2")),
       ("sk", Expression.arr "begins_with" [Value.str "comment"])]).expression
      ≠ "pk = :pk and sk = :sk" := by decide

/-- Claim C5 (amended): compiling the attribute mapping
`{ pk: "post2", sk: ["begins_with", "comment"] }` yields the condition
string `"pk = :pk and begins_with(sk, :sk)"` with bindings
`{":pk": "post2", ":sk": "comment"}`: a two-element array tagged
`"begins_with"` is the begins_with form itself and always compiles to the
`begins_with(...)` functional syntax — it does not fall back to
equality. -/
theorem begins_with_array_compiles_functional_form :
    toKeyConditionExpression
      [("pk", Expression.scalar (Value.str "post2")),
       ("sk", Expression.arr "begins_with" [Value.str "comment"])]
      = { values := [(":pk", some (Value.str "post2")),
                     (":sk", some (Value.str "comment"))],
          expression := "pk = :pk and begins_with(sk, :sk)" } := by decide

/-- Claim C6 counterexample: `toFilterConditionExpression` applied to an
absent mapping does not produce the empty condition string — its
`expression` field is `undefined` (`none`), not `""`. -/
theorem filter_undefined_expression_not_empty_string :
    toFilterConditionExpression none
      ≠ { expression := some "", values := [] } := by decide

/-- Claim C6 (amended): compiling the empty attribute mapping yields the
empty condition string and an empty binding mapping, and
`toFilterConditionExpression` applied to an absent/undefined mapping
yields an absent (`undefined`) condition expression together with an
empty binding mapping. -/
theorem empty_mapping_and_undefined_filter :
    toKeyConditionExpression [] = { values := [], expression := "" }
    ∧ toFilterConditionExpression none = { expression := none, values := [] } :=
  ⟨rfl, rfl⟩

/-- Claim C7: for every attribute mapping with a single entry whose
expression is a bare scalar (implicit equals), `toKeyConditionExpression`
yields the condition string `"{name} = :{name}"` and the binding mapping
`{":{name}": value}`. -/
theorem single_bare_scalar_compiles_equality (name : String) (v : Value) :
    (toKeyConditionExpression [(name, Expression.scalar v)]).values
        = [(":" ++ name, some v)]
    ∧ (toKeyConditionExpression [(name, Expression.scalar v)]).expression
        = name ++ " = :" ++ name := by
  constructor
  · rfl
  · show name ++ " " ++ "=" ++ " :" ++ name = name ++ " = :" ++ name
    apply String.ext
    simp [String.data_append]

/-- Claim C8: for every `between` entry with attribute name `{name}` and
bounds `min`, `max`, `toKeyConditionExpression` emits the clause
`"{name} between :{name}min and :{name}max"` and binds `:{name}min` to
`min` and `:{name}max` to `max`, each independently of the other. -/
theorem between_entry_compiles_range_clause (name : String) (a b : Value) :
    (toKeyConditionExpression [(name, Expression.arr "between" [a, b])]).values
        = [(":" ++ name ++ "min", some a), (":" ++ name ++ "max", some b)]
    ∧ (toKeyConditionExpression [(name, Expression.arr "between" [a, b])]).expression
        = name ++ " between :" ++ name ++ "min and :" ++ name ++ "max" := by
  constructor
  · show Rec.set (Rec.set [] (":" ++ name ++ "min") (some a))
        (":" ++ name ++ "max") (some b) = _
    simp [Rec.set, min_max_param_ne name]
  · rfl

/-- Claim C9 (implicit): a two-element array expression `[t, v]` whose tag
`t` is neither `"between"` nor `"begins_with"` does not fail and does not
fall back to equality against the array: it reaches the default comparison
branch, emitting the clause `"{name} {t} :{name}"` and binding `:{name}`
to the second element `v`. -/
theorem unrecognized_tag_falls_through (name t : String) (v : Value)
    (h1 : t ≠ "between") (h2 : t ≠ "begins_with") :
    (toKeyConditionExpression [(name, Expression.arr t [v])]).values
        = [(":" ++ name, some v)]
    ∧ (toKeyConditionExpression [(name, Expression.arr t [v])]).expression
        = name ++ " " ++ t ++ " :" ++ name := by
  constructor
  · show Rec.merge [] (toExpressionValue name (Expression.arr t [v])) = _
    simp [toExpressionValue, h1, Rec.merge, Rec.set]
  · show String.intercalate " and " [toExpression name (Expression.arr t [v])] = _
    simp [toExpression, h1, h2]
    rfl

/-- Claim C9 witness: the unrecognized tag `"like"` compiles to the
default comparison clause, binding the array's second element. -/
theorem unrecognized_tag_falls_through_witness :
    (toKeyConditionExpression [("sk", Expression.arr "like" [Value.str "x"])]).values
        = [(":sk", some (Value.str "x"))]
    ∧ (toKeyConditionExpression [("sk", Expression.arr "like" [Value.str "x"])]).expression
        = "sk like :sk" :=
  unrecognized_tag_falls_through "sk" "like" (Value.str "x") (by decide) (by decide)

/-- Claim C10 (implicit): the binding mappings of all attributes are
merged left to right in mapping iteration order: a binding synthesized by
the last attribute silently overwrites any earlier binding of the same
parameter name, a parameter name the last attribute does not bind keeps
its earlier value, and in the concrete colliding mapping
`{ x: ["between", 1, 2], xmin: 9 }` the result carries only the later
attribute's value for `:xmin` while the condition string still references
both clauses. -/
theorem bindings_merge_later_overwrites :
    (∀ (ks : Rec String Expression) (n : String) (e : Expression)
        (k : String) (v : Option Value),
        Rec.get (toExpressionValue n e) k = some v →
          Rec.get (toKeyConditionExpression (ks ++ [(n, e)])).values k = some v)
    ∧ (∀ (ks : Rec String Expression) (n : String) (e : Expression) (k : String),
        Rec.get (toExpressionValue n e) k = none →
          Rec.get (toKeyConditionExpression (ks ++ [(n, e)])).values k
            = Rec.get (toKeyConditionExpression ks).values k)
    ∧ toKeyConditionExpression
        [("x", Expression.arr "between" [Value.num 1, Value.num 2]),
         ("xmin", Expression.scalar (Value.num 9))]
      = { values := [(":xmin", some (Value.num 9)), (":xmax", some (Value.num 2))],
          expression := "x between :xmin and :xmax and xmin = :xmin" } := by
  have hsplit : ∀ (ks : Rec String Expression) (n : String) (e : Expression),
      (toKeyConditionExpression (ks ++ [(n, e)])).values
        = Rec.merge ((ks.map fun p => toExpressionValue p.1 p.2).foldl Rec.merge [])
            (toExpressionValue n e) := by
    intro ks n e
    simp [toKeyConditionExpression, List.foldl_append]
  refine ⟨?_, ?_, by decide⟩
  · intro ks n e k v h
    rw [hsplit]
    exact Rec.get_merge_of_some _ k v _ (toExpressionValue_keys_nodup n e) h
  · intro ks n e k h
    rw [hsplit]
    exact Rec.get_merge_of_none _ _ k h

/-- Claim C10 witness: in the colliding mapping the merged bindings carry
the later attribute's value for `:xmin`. -/
theorem bindings_merge_later_overwrites_witness :
    Rec.get (toKeyConditionExpression
        [("x", Expression.arr "between" [Value.num 1, Value.num 2]),
         ("xmin", Expression.scalar (Value.num 9))]).values ":xmin"
      = some (some (Value.num 9)) :=
  bindings_merge_later_overwrites.1
    [("x", Expression.arr "between" [Value.num 1, Value.num 2])]
    "xmin" (Expression.scalar (Value.num 9)) ":xmin" (some (Value.num 9)) (by decide)

/-- Claim C3: for every candidate input that fails the bound schema's
validation, `put` propagates the failure as a validation error carrying
the validator's diagnostic and performs no write — the table state it
returns is unchanged. -/
theorem put_invalid_no_write (r : Repository α ε) (keyOf : α → Key)
    (table : Rec Key α) (data : α) (e : ε)
    (h : r.schema.parse data = .error e) :
    r.put keyOf table data = (.error (.validation e), table) := by
  simp [Repository.put, Repository.parse, h]

/-- Claim C3 witness: a non-string rejected by `strSchema` leaves the
empty table empty and surfaces the diagnostic. -/
theorem put_invalid_no_write_witness :
    strRepo.put strKeyOf [] (Value.num 7)
      = (.error (.validation "expected a string"), []) :=
  put_invalid_no_write strRepo strKeyOf [] (Value.num 7) "expected a string" rfl

/-- Claim C4: for every key the table holds no item for, `get` fails with
`NotFoundError` whose message names the collection (table) and the
stringified key that was looked up, and never returns a success value. -/
theorem get_absent_notFound (r : Repository α ε) (table : Rec Key α) (key : Key)
    (h : Rec.get table key = none) :
    r.get table key = .error (.notFound (notFoundMessage r.tableName key))
    ∧ notFoundMessage r.tableName key
        = "Item not found in " ++ r.tableName ++ " for keys " ++ stringifyKey key
    ∧ ∀ v : α, r.get table key ≠ .ok v := by
  have hget : r.get table key
      = .error (.notFound (notFoundMessage r.tableName key)) := by
    simp [Repository.get, h]
  exact ⟨hget, rfl, fun v hv => by rw [hget] at hv; exact Except.noConfusion hv⟩

/-- Claim C4 witness: looking up a key absent from the empty `posts`
table raises `NotFoundError` with the message naming table and key, and
is not a success. -/
theorem get_absent_notFound_witness :
    strRepo.get [] [("pk", KeyValue.str "missing")]
        = .error (.notFound "Item not found in posts for keys \x7b\"pk\":\"missing\"\x7d")
    ∧ strRepo.get [] [("pk", KeyValue.str "missing")] ≠ .ok (Value.str "x") :=
  ⟨(get_absent_notFound strRepo [] [("pk", KeyValue.str "missing")] rfl).1,
   (get_absent_notFound strRepo [] [("pk", KeyValue.str "missing")] rfl).2.2
     (Value.str "x")⟩

/-- Claim C2 counterexample: for a schema whose transform is not stable on
its own output (`z.number().transform(n => n + 1)`), the item `0` is valid
— its validated form is `1` — yet `put(0)` followed by `get` at the stored
item's key returns `2`, not the validated form of the input.  The claim as
stated, quantifying only over a storage model where the write is visible
to the read, is false on the code because `get` re-parses the stored
item. -/
theorem put_get_roundtrip_fails_for_unstable_schema :
    bumpRepo.schema.parse (Value.num 0) = .ok (Value.num 1)
    ∧ (bumpRepo.put constKeyOf [] (Value.num 0)).1 = .ok (Value.num 1)
    ∧ bumpRepo.get (bumpRepo.put constKeyOf [] (Value.num 0)).2
        (constKeyOf (Value.num 1)) = .ok (Value.num 2)
    ∧ Value.num 2 ≠ Value.num 1 :=
  ⟨rfl, rfl, rfl, by decide⟩

/-- Claim C2 (amended): for every domain item valid under the bound
schema, if the schema is stable on its validated output (re-validating the
validated form returns it unchanged), `put(item)` followed by `get` with
the stored item's key attributes returns an item equal to the validated /
transformed form of the input, including schema-generated defaults, in the
storage model where the write is visible to the subsequent read. -/
theorem put_get_roundtrip (r : Repository α ε) (keyOf : α → Key)
    (table : Rec Key α) (data p : α)
    (h1 : r.schema.parse data = .ok p) (h2 : r.schema.parse p = .ok p) :
    (r.put keyOf table data).1 = .ok p
    ∧ r.get (r.put keyOf table data).2 (keyOf p) = .ok p := by
  have hput : r.put keyOf table data = (.ok p, Rec.set table (keyOf p) p) := by
    simp [Repository.put, Repository.parse, h1]
  rw [hput]
  exact ⟨rfl, by simp [Repository.get, Rec.get_set_self, Repository.parse, h2]⟩

/-- Claim C2 witness: a string survives the round trip through the
stable `strSchema`. -/
theorem put_get_roundtrip_witness :
    (strRepo.put strKeyOf [] (Value.str "a")).1 = .ok (Value.str "a")
    ∧ strRepo.get (strRepo.put strKeyOf [] (Value.str "a")).2
        (strKeyOf (Value.str "a")) = .ok (Value.str "a") :=
  put_get_roundtrip strRepo strKeyOf [] (Value.str "a") (Value.str "a") rfl rfl

/-- Claim C1: every item a repository operation hands to the caller has
passed the bound schema's validation.  `put` returns only the parse result
of its input; `get` returns only the successful parse of the raw item
fetched for the key; every item `query`/`scan` yields is the successful
parse of a raw item of the fetched pages; and when some raw item fails
validation the yielded sequence stops at exactly the successfully
validated prefix and the generator aborts with that validation error —
already-yielded items are not retracted, and raw unvalidated data is never
returned by any operation. -/
theorem repository_never_returns_unvalidated (r : Repository α ε) :
    (∀ (keyOf : α → Key) (table : Rec Key α) (data p : α) (t2 : Rec Key α),
        r.put keyOf table data = (.ok p, t2) → r.schema.parse data = .ok p)
    ∧ (∀ (table : Rec Key α) (key : Key) (v : α),
        r.get table key = .ok v →
          ∃ raw, Rec.get table key = some raw ∧ r.schema.parse raw = .ok v)
    ∧ (∀ (engine : QueryRequest → List (Page α)) (keys : Rec String Expression)
          (params : QueryParams),
        (∀ y ∈ (r.query engine keys params).1,
            ∃ raw ∈ r.queryRaws engine keys params, r.schema.parse raw = .ok y)
        ∧ ∀ e, (r.query engine keys params).2 = some e →
            ∃ pre bad post,
              r.queryRaws engine keys params = pre ++ bad :: post
              ∧ (∀ x ∈ pre, (r.schema.parse x).isOk)
              ∧ r.schema.parse bad = .error e
              ∧ (r.query engine keys params).1
                  = pre.filterMap (fun x => (r.schema.parse x).toOption))
    ∧ (∀ engine : ScanRequest → List (Page α),
        (∀ y ∈ (r.scan engine).1,
            ∃ raw ∈ r.scanRaws engine, r.schema.parse raw = .ok y)
        ∧ ∀ e, (r.scan engine).2 = some e →
            ∃ pre bad post,
              r.scanRaws engine = pre ++ bad :: post
              ∧ (∀ x ∈ pre, (r.schema.parse x).isOk)
              ∧ r.schema.parse bad = .error e
              ∧ (r.scan engine).1
                  = pre.filterMap (fun x => (r.schema.parse x).toOption)) := by
  refine ⟨?_, ?_, ?_, ?_⟩
  · intro keyOf table data p t2 h
    cases hp : r.parse data with
    | error e => simp [Repository.put, hp] at h
    | ok parsed =>
      simp [Repository.put, hp] at h
      simpa [Repository.parse, h.1] using hp
  · intro table key v h
    cases ht : Rec.get table key with
    | none => simp [Repository.get, ht] at h
    | some raw =>
      cases hp : r.parse raw with
      | error e => simp [Repository.get, ht, hp] at h
      | ok w =>
        simp [Repository.get, ht, hp] at h
        exact ⟨raw, rfl, by simpa [Repository.parse, h] using hp⟩
  · intro engine keys params
    exact ⟨parseItems_mem r.parse (r.queryRaws engine keys params),
           fun e he => parseItems_abort r.parse (r.queryRaws engine keys params) e he⟩
  · intro engine
    exact ⟨parseItems_mem r.parse (r.scanRaws engine),
           fun e he => parseItems_abort r.parse (r.scanRaws engine) e he⟩

/-- Claim C1 witness: on the concrete `posts` repository, the parse result
behind a successful `put`, the raw item behind a successful `get`, the raw
item behind a yielded `query` item, and the abort shape of a `scan` that
hits an invalid stored item are all produced as the theorem states. -/
theorem repository_never_returns_unvalidated_witness :
    strRepo.schema.parse (Value.str "a") = .ok (Value.str "a")
    ∧ (∃ raw, Rec.get [([("pk", KeyValue.str "a")], Value.str "a")]
          [("pk", KeyValue.str "a")] = some raw
        ∧ strRepo.schema.parse raw = .ok (Value.str "a"))
    ∧ (∃ raw ∈ strRepo.queryRaws (fun _ => [⟨some [Value.str "a"]⟩])
          [("pk", Expression.scalar (Value.str "a"))] { index := none },
        strRepo.schema.parse raw = .ok (Value.str "a"))
    ∧ (∃ pre bad post,
        strRepo.scanRaws (fun _ => [⟨some [Value.num 3]⟩]) = pre ++ bad :: post
        ∧ (∀ x ∈ pre, (strRepo.schema.parse x).isOk)
        ∧ strRepo.schema.parse bad = .error "expected a string"
        ∧ (strRepo.scan (fun _ => [⟨some [Value.num 3]⟩])).1
            = pre.filterMap (fun x => (strRepo.schema.parse x).toOption)) :=
  ⟨(repository_never_returns_unvalidated strRepo).1 strKeyOf [] (Value.str "a")
      (Value.str "a") [([("pk", KeyValue.str "a")], Value.str "a")] rfl,
   (repository_never_returns_unvalidated strRepo).2.1
      [([("pk", KeyValue.str "a")], Value.str "a")] [("pk", KeyValue.str "a")]
      (Value.str "a") rfl,
   ((repository_never_returns_unvalidated strRepo).2.2.1
      (fun _ => [⟨some [Value.str "a"]⟩])
      [("pk", Expression.scalar (Value.str "a"))] { index := none }).1
      (Value.str "a") (by decide),
   ((repository_never_returns_unvalidated strRepo).2.2.2
      (fun _ => [⟨some [Value.num 3]⟩])).2 "expected a string" rfl⟩
